import Mathlib

/-!
Verification of the compile-time constant-injection crate.

The crate caches one UTC timestamp (`COMPILE_TIME`) and one toolchain
version (`RUSTC_VERSION`) per build process, and each proc-macro emits a
literal derived purely from those cached values.  This file embeds:

* the captured timestamp (`Instant`) and the pure view functions the
  macros apply to it (structured date/time, the three formatted strings,
  and the UNIX timestamp computed via the julian-day algorithm of the
  `time` crate);
* the captured toolchain version (`Version`), its canonical string
  rendering (the `semver` Display implementation) and a standard
  semantic-version parser;
* an operational model of the two lazily-initialized caches and of each
  macro's expansion (`expand`), including the panic path for a memoized
  version-query error;
* the run-time reconstruction expressions the macros emit, with their
  supposedly unreachable fallback arms.
-/

set_option maxRecDepth 10000

namespace CompileTime

/-- The captured UTC build timestamp: the projection of the cached
`time::OffsetDateTime` (static `COMPILE_TIME`) to the fields the macros
read — `year()`, `month()` (as 1..=12), `day()`, `hour()`, `minute()`,
`second()`. -/
structure Instant where
  year : Int
  month : Nat
  day : Nat
  hour : Nat
  minute : Nat
  second : Nat
deriving DecidableEq

/-- Leap-year rule of `time::util::is_leap_year`:
`year % 4 == 0 && (year % 100 != 0 || year % 400 == 0)`.  Rust's `%` is the
truncated remainder while Lean's `%` on `Int` is the Euclidean remainder;
the two agree on all `== 0` tests, which is all this predicate uses. -/
def isLeapYear (y : Int) : Bool :=
  decide (y % 4 = 0 ∧ (y % 100 ≠ 0 ∨ y % 400 = 0))

/-- Length of a month, as in `time::util::days_in_year_month`. -/
def daysInMonth (leap : Bool) (m : Nat) : Nat :=
  match m with
  | 1 => 31 | 2 => if leap then 29 else 28 | 3 => 31 | 4 => 30
  | 5 => 31 | 6 => 30 | 7 => 31 | 8 => 31
  | 9 => 30 | 10 => 31 | 11 => 30 | 12 => 31
  | _ => 0

/-- Days preceding a month, the cumulative-days table used by
`time::Date::from_calendar_date` to compute the stored ordinal. -/
def cumulDays (leap : Bool) (m : Nat) : Nat :=
  match m with
  | 1 => 0 | 2 => 31 | 3 => if leap then 60 else 59 | 4 => if leap then 91 else 90
  | 5 => if leap then 121 else 120 | 6 => if leap then 152 else 151
  | 7 => if leap then 182 else 181 | 8 => if leap then 213 else 212
  | 9 => if leap then 244 else 243 | 10 => if leap then 274 else 273
  | 11 => if leap then 305 else 304 | 12 => if leap then 335 else 334
  | _ => 0

/-- Day-of-year of a calendar date (the ordinal stored inside `time::Date`). -/
def ordinalOfFields (y : Int) (m d : Nat) : Nat := cumulDays (isLeapYear y) m + d

/-- Julian day of a calendar date, as in `time::Date::to_julian_day`:
`ordinal + 365 * (year - 1) + div_floor!(year - 1, 4)
 - div_floor!(year - 1, 100) + div_floor!(year - 1, 400) + 1_721_425`.
Lean's `/` on `Int` is floor division for positive divisors, matching the
`div_floor!` macro of the `time` crate. -/
def toJulianDayFields (y : Int) (m d : Nat) : Int :=
  (ordinalOfFields y m d : Int) + 365 * (y - 1) + (y - 1) / 4 - (y - 1) / 100
    + (y - 1) / 400 + 1721425

/-- Days since the UNIX epoch: `to_julian_day() - UNIX_EPOCH_JULIAN_DAY`
with `UNIX_EPOCH_JULIAN_DAY = 2_440_588`. -/
def daysFromEpoch (y : Int) (m d : Nat) : Int := toJulianDayFields y m d - 2440588

/-- The value emitted by the `unix!` macro:
`OffsetDateTime::unix_timestamp` of the cached instant, i.e. whole days
since the epoch times 86400 plus the seconds of the day (offset zero). -/
def unixOfInstant (i : Instant) : Int :=
  daysFromEpoch i.year i.month i.day * 86400
    + (3600 * i.hour + 60 * i.minute + i.second : Nat)

/-- In-range calendar fields: exactly the ranges a `time::OffsetDateTime`
produced by `now_utc()` satisfies (and that `Date::from_calendar_date` /
`Time::from_hms` validate). -/
def validInstant (i : Instant) : Prop :=
  -9999 ≤ i.year ∧ i.year ≤ 9999 ∧ 1 ≤ i.month ∧ i.month ≤ 12 ∧
  1 ≤ i.day ∧ i.day ≤ daysInMonth (isLeapYear i.year) i.month ∧
  i.hour < 24 ∧ i.minute < 60 ∧ i.second < 60

instance : DecidablePred validInstant := fun i => by
  unfold validInstant; infer_instance

/- ## Decimal rendering

The crate's string views zero-pad every numeric field; `natChars` renders a
natural number in decimal (most significant digit first), with structural
fuel so that it evaluates inside the kernel. -/

/-- Decimal digits of `n`, most significant first, with explicit fuel. -/
def natCharsAux : Nat → Nat → List Char
  | 0, _ => []
  | fuel + 1, n =>
    if n < 10 then [Nat.digitChar n]
    else natCharsAux fuel (n / 10) ++ [Nat.digitChar (n % 10)]

/-- Decimal rendering of a natural number. -/
def natChars (n : Nat) : List Char := natCharsAux (n + 1) n

/-- Zero-pad to two characters, as the `[month]`, `[day]`, `[hour]`,
`[minute]` and `[second]` format components do. -/
def pad2Chars (n : Nat) : List Char :=
  if n < 10 then '0' :: natChars n else natChars n

/-- Zero-pad to four characters, as the `[year]` format component does. -/
def pad4Chars (n : Nat) : List Char :=
  (if n < 10 then ['0', '0', '0']
   else if n < 100 then ['0', '0']
   else if n < 1000 then ['0']
   else []) ++ natChars n

/-- Rendering of the `[year]` component: a sign for negative years, then
the four-digit zero-padded absolute value. -/
def yearChars (y : Int) : List Char :=
  (if y < 0 then ['-'] else []) ++ pad4Chars y.natAbs

/-- Characters of the literal emitted by `date_str!`, i.e. the cached date
formatted with `format_description!("[year]-[month]-[day]")`. -/
def dateStrChars (i : Instant) : List Char :=
  yearChars i.year ++ '-' :: pad2Chars i.month ++ '-' :: pad2Chars i.day

/-- Characters of the literal emitted by `time_str!`, i.e. the cached time
formatted with `format_description!("[hour]:[minute]:[second]")`. -/
def timeStrChars (i : Instant) : List Char :=
  pad2Chars i.hour ++ ':' :: pad2Chars i.minute ++ ':' :: pad2Chars i.second

/-- Characters of the literal emitted by `datetime_str!`, i.e. the cached
instant formatted with
`format_description!("[year]-[month]-[day]T[hour]:[minute]:[second]Z")`. -/
def datetimeStrChars (i : Instant) : List Char :=
  yearChars i.year ++ '-' :: pad2Chars i.month ++ '-' :: pad2Chars i.day
    ++ 'T' :: pad2Chars i.hour ++ ':' :: pad2Chars i.minute
    ++ ':' :: pad2Chars i.second ++ ['Z']

/-- The string emitted by `date_str!`. -/
def date_str (i : Instant) : String := ⟨dateStrChars i⟩

/-- The string emitted by `time_str!`. -/
def time_str (i : Instant) : String := ⟨timeStrChars i⟩

/-- The string emitted by `datetime_str!`. -/
def datetime_str (i : Instant) : String := ⟨datetimeStrChars i⟩

/- ## Converting a UNIX timestamp back to calendar fields

The repository never converts a timestamp back; the spec's round-trip
property ("UnixSeconds converted back to UTC calendar fields equals
StructuredDateTime's fields") needs a reference conversion, modelled here
by the standard civil-from-days algorithm (Howard Hinnant's, the one
underlying common UTC conversions). -/

/-- Day count corrected by the leap-day terms; the year-of-era numerator of
the civil-from-days algorithm. -/
def f146 (n : Nat) : Nat := n - n / 1460 + n / 36524 - n / 146096

/-- First day-of-era of a year-of-era. -/
def natStart (yoe : Nat) : Nat := 365 * yoe + yoe / 4 - yoe / 100

/-- First day-of-era of a year-of-era, closing the 400-year era at 146097. -/
def natStartE (y : Nat) : Nat := if y = 400 then 146097 else natStart y

/-- Length of a month counted from March (`mp = 0` is March, `mp = 11` is
February), taking the longer February. -/
def mdaysS (mp : Nat) : Nat :=
  match mp with
  | 0 => 31 | 1 => 30 | 2 => 31 | 3 => 30 | 4 => 31 | 5 => 31
  | 6 => 30 | 7 => 31 | 8 => 30 | 9 => 31 | 10 => 31 | 11 => 29
  | _ => 0

/-- Year-of-era of a day-of-era. -/
def yoeOf (doe : Nat) : Nat := f146 doe / 365

/-- Day-of-year (March-based) of a day-of-era. -/
def doyOf (doe : Nat) : Nat := doe - natStart (yoeOf doe)

/-- March-based month index of a day-of-era. -/
def mpOf (doe : Nat) : Nat := (5 * doyOf doe + 2) / 153

/-- Day-of-month of a day-of-era. -/
def dayOf (doe : Nat) : Nat := doyOf doe - (153 * mpOf doe + 2) / 5 + 1

/-- Calendar month (1..=12) of a day-of-era. -/
def monthOf (doe : Nat) : Nat :=
  if mpOf doe < 10 then mpOf doe + 3 else mpOf doe - 9

/-- Calendar year of an era and day-of-era. -/
def yearOf (era : Int) (doe : Nat) : Int :=
  if monthOf doe ≤ 2 then era * 400 + yoeOf doe + 1 else era * 400 + yoeOf doe

/-- Modelled from the spec: the missing back-conversion from a day count
(days since the UNIX epoch) to a UTC calendar date, via the standard
civil-from-days algorithm. -/
def civilFromDays (z : Int) : Int × Nat × Nat :=
  (yearOf ((z + 719468) / 146097) ((z + 719468) % 146097).toNat,
   monthOf ((z + 719468) % 146097).toNat,
   dayOf ((z + 719468) % 146097).toNat)

/-- Modelled from the spec: the missing back-conversion from a UNIX
timestamp to UTC calendar fields (date via `civilFromDays` on the whole
days, then the seconds of the day split into hour, minute, second). -/
def instantFromUnix (ts : Int) : Instant :=
  { year := (civilFromDays (ts / 86400)).1,
    month := (civilFromDays (ts / 86400)).2.1,
    day := (civilFromDays (ts / 86400)).2.2,
    hour := (ts % 86400).toNat / 3600,
    minute := (ts % 86400).toNat % 3600 / 60,
    second := (ts % 86400).toNat % 60 }

/- ### Round-trip support lemmas -/

set_option maxHeartbeats 1600000 in
theorem f146_le_succ (n : Nat) : f146 n ≤ f146 (n + 1) := by
  unfold f146
  have e1 := Nat.succ_div n 1460
  have e2 := Nat.succ_div n 36524
  have e3 := Nat.succ_div n 146096
  split_ifs at e1 e2 e3 <;> omega

theorem f146_monotone : Monotone f146 :=
  monotone_nat_of_le_succ f146_le_succ

/-- Endpoint checks: over one 400-year era, the corrected day count of the
first and last day of every year-of-era falls in the right 365-block. -/
theorem endpoints_ok : ∀ yoe : Nat, yoe < 400 →
    365 * yoe ≤ f146 (natStart yoe) ∧
    f146 (natStartE (yoe + 1) - 1) < 365 * yoe + 365 ∧
    natStart yoe < natStartE (yoe + 1) ∧
    natStartE (yoe + 1) ≤ 146097 := by decide

/-- Month-of-shifted-year recovery: the day-of-year slot of every valid
day of every March-based month decodes back to that month. -/
theorem month_ok : ∀ mp : Nat, mp < 12 → ∀ d0 : Nat, d0 < mdaysS mp →
    (5 * ((153 * mp + 2) / 5 + d0) + 2) / 153 = mp ∧
    (153 * mp + 2) / 5 + d0 ≤ 365 := by decide

/-- Length of every year-of-era slot against the leap rule of the year
whose February it contains. -/
theorem slot_ok : ∀ yoe : Nat, yoe < 400 →
    natStartE (yoe + 1) - natStart yoe =
      365 + (if (yoe + 1) % 4 = 0 ∧ ((yoe + 1) % 100 ≠ 0 ∨ yoe + 1 = 400)
             then 1 else 0) := by decide

/-- Decoding of an era-decomposed day count: if a day count is presented
as an era, a year-of-era, a March-based month and a day offset in range,
`civilFromDays` recovers exactly those components. -/
theorem civil_decompose (era : Int) (yoe mp d0 : Nat)
    (h1 : yoe < 400) (hmp : mp < 12) (hd0 : d0 < mdaysS mp)
    (hslot : (153 * mp + 2) / 5 + d0 < natStartE (yoe + 1) - natStart yoe) :
    civilFromDays (146097 * era
        + ((natStart yoe + ((153 * mp + 2) / 5 + d0) : Nat) : Int) - 719468)
      = (era * 400 + yoe + (if 10 ≤ mp then 1 else 0),
         (if mp < 10 then mp + 3 else mp - 9), d0 + 1) := by
  have hend := endpoints_ok yoe h1
  have hmon := month_ok mp hmp d0 hd0
  set doy : Nat := (153 * mp + 2) / 5 + d0 with hdoy
  set doe : Nat := natStart yoe + doy with hdoe
  have hdoe_lt : doe < 146097 := by omega
  have hz : 146097 * era + (doe : Int) - 719468 + 719468 = 146097 * era + doe := by
    ring
  have hdiv : (146097 * era + (doe : Int)) / 146097 = era := by omega
  have hmod : (146097 * era + (doe : Int)) % 146097 = (doe : Int) := by omega
  have hyoe : yoeOf doe = yoe := by
    have hlo : f146 (natStart yoe) ≤ f146 doe :=
      f146_monotone (by omega)
    have hhi : f146 doe ≤ f146 (natStartE (yoe + 1) - 1) :=
      f146_monotone (by omega)
    unfold yoeOf
    omega
  have hdoy' : doyOf doe = doy := by
    unfold doyOf
    rw [hyoe]
    omega
  have hmp' : mpOf doe = mp := by
    unfold mpOf
    rw [hdoy']
    exact hmon.1
  have hd' : dayOf doe = d0 + 1 := by
    unfold dayOf
    rw [hdoy', hmp']
    omega
  have hm' : monthOf doe = if mp < 10 then mp + 3 else mp - 9 := by
    unfold monthOf
    rw [hmp']
  have hy' : yearOf era doe = era * 400 + yoe + (if 10 ≤ mp then 1 else 0) := by
    unfold yearOf
    rw [hm', hyoe]
    by_cases h10 : mp < 10
    · have hne : ¬ (mp + 3 ≤ 2) := by omega
      simp only [if_pos h10, if_neg hne, if_neg (by omega : ¬ 10 ≤ mp)]
      omega
    · have hle : mp - 9 ≤ 2 := by omega
      simp only [if_neg h10, if_pos hle, if_pos (by omega : 10 ≤ mp)]
  unfold civilFromDays
  rw [hz, hdiv, hmod, Int.toNat_natCast, hy', hm', hd']

/-- Propositional form of the leap-year test. -/
theorem isLeapYear_iff (y : Int) :
    isLeapYear y = true ↔ (y % 4 = 0 ∧ (y % 100 ≠ 0 ∨ y % 400 = 0)) := by
  simp [isLeapYear]

/-- Propositional form of a failing leap-year test. -/
theorem isLeapYear_eq_false (y : Int) :
    isLeapYear y = false ↔ ¬ (y % 4 = 0 ∧ (y % 100 ≠ 0 ∨ y % 400 = 0)) := by
  simp [isLeapYear]

/-- Numeric facts relating the calendar tables of months March..December
to the March-based month data. -/
theorem monthdata_late : ∀ mp : Nat, mp ≤ 9 → ∀ lp : Bool,
    cumulDays lp (mp + 3) = (153 * mp + 2) / 5 + 59 + (if lp then 1 else 0) ∧
    daysInMonth lp (mp + 3) = mdaysS mp ∧
    mdaysS mp ≤ 31 ∧ (153 * mp + 2) / 5 ≤ 275 := by decide

/-- Round trip for dates in months March..December. -/
theorem civil_roundtrip_late (y : Int) (mp d : Nat) (hmp : mp ≤ 9)
    (hd1 : 1 ≤ d) (hd2 : d ≤ daysInMonth (isLeapYear y) (mp + 3)) :
    civilFromDays (daysFromEpoch y (mp + 3) d) = (y, mp + 3, d) := by
  have hmd := monthdata_late mp hmp (isLeapYear y)
  set era := y / 400 with hera
  set yoeZ := y % 400 with hyz
  have hnn : 0 ≤ yoeZ := Int.emod_nonneg y (by norm_num)
  set yoe := yoeZ.toNat with hyoe
  have hcast : (yoe : Int) = yoeZ := Int.toNat_of_nonneg hnn
  have hlt : yoe < 400 := by omega
  have hd0 : d - 1 < mdaysS mp := by omega
  have hslot : (153 * mp + 2) / 5 + (d - 1) < natStartE (yoe + 1) - natStart yoe := by
    have hs := slot_ok yoe hlt
    split_ifs at hs <;> omega
  have hfwd : daysFromEpoch y (mp + 3) d
      = 146097 * era
        + ((natStart yoe + ((153 * mp + 2) / 5 + (d - 1)) : Nat) : Int) - 719468 := by
    unfold daysFromEpoch toJulianDayFields ordinalOfFields
    rw [hmd.1]
    unfold natStart
    cases hL : isLeapYear y
    · have hLP := (isLeapYear_eq_false y).mp hL
      simp only [Bool.false_eq_true, if_false]
      omega
    · have hLP := (isLeapYear_iff y).mp hL
      simp only [if_true]
      omega
  rw [hfwd, civil_decompose era yoe mp (d - 1) hlt (by omega) hd0 hslot]
  have h10 : ¬ (10 ≤ mp) := by omega
  simp only [if_neg h10, if_pos (by omega : mp < 10), Prod.mk.injEq]
  refine ⟨by omega, trivial, by omega⟩

/-- Round trip for dates in January and February. -/
theorem civil_roundtrip_early (y : Int) (m d : Nat) (hm1 : 1 ≤ m) (hm2 : m ≤ 2)
    (hd1 : 1 ≤ d) (hd2 : d ≤ daysInMonth (isLeapYear y) m) :
    civilFromDays (daysFromEpoch y m d) = (y, m, d) := by
  set era := (y - 1) / 400 with hera
  set yoeZ := (y - 1) % 400 with hyz
  have hnn : 0 ≤ yoeZ := Int.emod_nonneg (y - 1) (by norm_num)
  set yoe := yoeZ.toNat with hyoe
  have hcast : (yoe : Int) = yoeZ := Int.toNat_of_nonneg hnn
  have hlt : yoe < 400 := by omega
  have hs := slot_ok yoe hlt
  have key : d - 1 < mdaysS (m + 9) →
      (153 * (m + 9) + 2) / 5 + (d - 1) < natStartE (yoe + 1) - natStart yoe →
      daysFromEpoch y m d
        = 146097 * era
          + ((natStart yoe + ((153 * (m + 9) + 2) / 5 + (d - 1)) : Nat) : Int)
          - 719468 →
      civilFromDays (daysFromEpoch y m d) = (y, m, d) := by
    intro hA hB hfwd
    rw [hfwd, civil_decompose era yoe (m + 9) (d - 1) hlt (by omega) hA hB]
    have h10 : 10 ≤ m + 9 := by omega
    simp only [if_pos h10, if_neg (by omega : ¬ (m + 9 < 10)), Prod.mk.injEq]
    refine ⟨by omega, by omega, by omega⟩
  interval_cases m
  · -- January
    have hd31 : d ≤ 31 := by simpa [daysInMonth] using hd2
    apply key
    · simp only [mdaysS]; omega
    · split_ifs at hs <;> omega
    · simp only [daysFromEpoch, toJulianDayFields, ordinalOfFields, natStart,
        cumulDays]
      omega
  · -- February
    cases hL : isLeapYear y
    · have hLP := (isLeapYear_eq_false y).mp hL
      rw [hL] at hd2
      have hd28 : d ≤ 28 := by simpa [daysInMonth] using hd2
      apply key
      · simp only [mdaysS]; omega
      · split_ifs at hs <;> omega
      · simp only [daysFromEpoch, toJulianDayFields, ordinalOfFields, natStart,
          cumulDays]
        omega
    · have hLP := (isLeapYear_iff y).mp hL
      rw [hL] at hd2
      have hd29 : d ≤ 29 := by simpa [daysInMonth] using hd2
      apply key
      · simp only [mdaysS]; omega
      · split_ifs at hs <;> omega
      · simp only [daysFromEpoch, toJulianDayFields, ordinalOfFields, natStart,
          cumulDays]
        omega

/-- Round trip from calendar date to epoch day count and back, for every
valid calendar date of every year. -/
theorem civil_roundtrip (y : Int) (m d : Nat) (hm1 : 1 ≤ m) (hm2 : m ≤ 12)
    (hd1 : 1 ≤ d) (hd2 : d ≤ daysInMonth (isLeapYear y) m) :
    civilFromDays (daysFromEpoch y m d) = (y, m, d) := by
  by_cases h : m ≤ 2
  · exact civil_roundtrip_early y m d hm1 h hd1 hd2
  · obtain ⟨mp, rfl⟩ : ∃ mp, m = mp + 3 := ⟨m - 3, by omega⟩
    exact civil_roundtrip_late y mp d (by omega) hd1 hd2

/-- Round trip from a valid instant to its UNIX timestamp and back. -/
theorem instant_roundtrip (i : Instant) (h : validInstant i) :
    instantFromUnix (unixOfInstant i) = i := by
  obtain ⟨y, m, d, hh, mi, s⟩ := i
  unfold validInstant at h
  dsimp only at h
  obtain ⟨hy1, hy2, hm1, hm2, hd1, hd2, hhh, hmm, hss⟩ := h
  have hsod : (3600 * hh + 60 * mi + s : Nat) < 86400 := by omega
  unfold unixOfInstant instantFromUnix
  dsimp only
  have h1 : (daysFromEpoch y m d * 86400 + ((3600 * hh + 60 * mi + s : Nat) : Int))
      / 86400 = daysFromEpoch y m d := by omega
  have h2 : (daysFromEpoch y m d * 86400 + ((3600 * hh + 60 * mi + s : Nat) : Int))
      % 86400 = ((3600 * hh + 60 * mi + s : Nat) : Int) := by omega
  rw [h1, h2, Int.toNat_natCast, civil_roundtrip y m d hm1 hm2 hd1 hd2]
  simp only [Instant.mk.injEq]
  refine ⟨trivial, trivial, trivial, by omega, by omega, by omega⟩

/- ## Toolchain version -/

/-- The captured toolchain version: the fields of the `semver::Version`
produced by `rustc_version::version()` (static `RUSTC_VERSION`).  The
numeric components are `u64` in Rust, here naturals bounded in
`validVersion`; prerelease and build metadata are strings, empty when
absent. -/
structure Version where
  major : Nat
  minor : Nat
  patch : Nat
  pre : List Char
  build : List Char
deriving DecidableEq

/-- Characters of the `Display` output of `semver::Version`, the string
emitted by `rustc_version_str!`: `major.minor.patch`, then `-pre` when the
prerelease is nonempty, then `+build` when the build metadata is
nonempty. -/
def versionChars (v : Version) : List Char :=
  natChars v.major
    ++ ('.' :: (natChars v.minor
      ++ ('.' :: (natChars v.patch
        ++ ((if v.pre = [] then [] else '-' :: v.pre)
          ++ (if v.build = [] then [] else '+' :: v.build))))))

/-- The string emitted by `rustc_version_str!`. -/
def rustc_version_str (v : Version) : String := ⟨versionChars v⟩

/-- Modelled from the spec: the canonical form
`major.minor.patch[-prerelease][+build]` with a segment omitted entirely
when its string is empty (the spec's `VersionString`; the repository only
contains the call to the Display implementation of the semver crate). -/
def canonicalVersionChars (v : Version) : List Char :=
  natChars v.major
    ++ ('.' :: (natChars v.minor
      ++ ('.' :: (natChars v.patch
        ++ ((if v.pre = [] then [] else '-' :: v.pre)
          ++ (if v.build = [] then [] else '+' :: v.build))))))

/-- A character allowed inside a semver prerelease or build identifier:
ASCII alphanumeric or hyphen. -/
def isIdentChar (c : Char) : Bool := c.isAlphanum || c == '-'

/-- A character that may occur in a whole prerelease or build section:
identifier characters and the dot separator. -/
def isPreChar (c : Char) : Bool := isIdentChar c || c == '.'

/-- Split a character list at dots; always returns at least one group. -/
def splitDots : List Char → List (List Char)
  | [] => [[]]
  | c :: cs =>
    match splitDots cs with
    | [] => [[c]]
    | g :: gs => if c = '.' then [] :: g :: gs else (c :: g) :: gs

/-- Validity of one dot-separated identifier, per the semver grammar:
nonempty, alphanumeric-or-hyphen characters only, and (unless
`allowLeadingZeros`, as for build metadata) no leading zero on an
all-numeric identifier. -/
def identOk (allowLeadingZeros : Bool) (seg : List Char) : Bool :=
  !seg.isEmpty && seg.all isIdentChar &&
    (allowLeadingZeros || !(seg.all (·.isDigit)) || seg.head? != some '0'
      || seg.length == 1)

/-- Validity of a nonempty prerelease string, per `semver::Prerelease::new`. -/
def validPre (s : List Char) : Bool := (splitDots s).all (identOk false)

/-- Validity of a nonempty build-metadata string, per
`semver::BuildMetadata::new`. -/
def validBuild (s : List Char) : Bool := (splitDots s).all (identOk true)

/-- A version as captured from a successful `rustc_version::version()`
query: numeric components fit in `u64`, prerelease and build metadata are
either absent (empty) or well-formed identifier sequences. -/
def validVersion (v : Version) : Prop :=
  v.major < 2 ^ 64 ∧ v.minor < 2 ^ 64 ∧ v.patch < 2 ^ 64 ∧
  (v.pre = [] ∨ validPre v.pre = true) ∧
  (v.build = [] ∨ validBuild v.build = true)

instance : DecidablePred validVersion := fun v => by
  unfold validVersion; infer_instance

/- ## A standard semantic-version parser -/

/-- Numeric value of a decimal digit character. -/
def digitVal (c : Char) : Nat := c.toNat - '0'.toNat

/-- Value of a decimal digit string, most significant digit first. -/
def charsToNat (s : List Char) : Nat := s.foldl (fun a c => 10 * a + digitVal c) 0

/-- Modelled from the spec: one numeric component of a standard
semantic-version parser — a nonempty digit run without leading zeros whose
value fits in `u64`. -/
def parseNum (s : List Char) : Option (Nat × List Char) :=
  let ds := s.takeWhile (·.isDigit)
  let rest := s.dropWhile (·.isDigit)
  if ds.isEmpty then none
  else if ds.head? = some '0' ∧ ds.length ≠ 1 then none
  else if charsToNat ds < 2 ^ 64 then some (charsToNat ds, rest) else none

/-- Consume one dot. -/
def expectDot : List Char → Option (List Char)
  | '.' :: r => some r
  | _ => none

/-- Consume and validate a prerelease section. -/
def parsePre (s : List Char) : Option (List Char × List Char) :=
  if validPre (s.takeWhile isPreChar)
  then some (s.takeWhile isPreChar, s.dropWhile isPreChar) else none

/-- Consume and validate a build-metadata section. -/
def parseBuild (s : List Char) : Option (List Char × List Char) :=
  if validBuild (s.takeWhile isPreChar)
  then some (s.takeWhile isPreChar, s.dropWhile isPreChar) else none

/-- An optional `-prerelease` segment. -/
def parsePreOpt : List Char → Option (List Char × List Char)
  | '-' :: r => parsePre r
  | s => some ([], s)

/-- An optional `+build` segment. -/
def parseBuildOpt : List Char → Option (List Char × List Char)
  | '+' :: r => parseBuild r
  | s => some ([], s)

/-- Modelled from the spec: a standard semantic-version parser (the
repository only emits version strings; the spec's round-trip property
refers to parsing them back).  Follows the grammar of `semver`'s
`Version::parse`: `major.minor.patch`, an optional `-prerelease`, an
optional `+build`, nothing trailing. -/
def parseSemver (s : List Char) : Option Version :=
  match parseNum s with
  | none => none
  | some (major, s1) =>
    match expectDot s1 with
    | none => none
    | some s2 =>
      match parseNum s2 with
      | none => none
      | some (minor, s3) =>
        match expectDot s3 with
        | none => none
        | some s4 =>
          match parseNum s4 with
          | none => none
          | some (patch, s5) =>
            match parsePreOpt s5 with
            | none => none
            | some (pre, s6) =>
              match parseBuildOpt s6 with
              | none => none
              | some (build, s7) =>
                if s7 = [] then some ⟨major, minor, patch, pre, build⟩
                else none

/- ### Digit-rendering facts -/

theorem digitChar_facts : ∀ k : Nat, k < 10 →
    (Nat.digitChar k).isDigit = true ∧ digitVal (Nat.digitChar k) = k ∧
    ((Nat.digitChar k = '0') ↔ k = 0) := by decide

theorem natCharsAux_spec : ∀ n fuel : Nat, n < fuel →
    natCharsAux fuel n ≠ [] ∧
    (∀ c ∈ natCharsAux fuel n, c.isDigit = true) ∧
    (∀ a : Nat, (natCharsAux fuel n).foldl (fun a c => 10 * a + digitVal c) a
        = a * 10 ^ (natCharsAux fuel n).length + n) ∧
    (1 ≤ n → (natCharsAux fuel n).head? ≠ some '0') := by
  intro n
  induction n using Nat.strong_induction_on with
  | _ n ih =>
    intro fuel hf
    match fuel, hf with
    | fuel + 1, hf =>
      by_cases h10 : n < 10
      · simp only [natCharsAux, if_pos h10]
        obtain ⟨hdig, hval, hzero⟩ := digitChar_facts n h10
        refine ⟨by simp, by simpa using hdig, ?_, ?_⟩
        · intro a
          simp [hval]
          ring
        · intro h1
          simp only [List.head?_cons, ne_eq, Option.some.injEq]
          intro hc
          exact absurd (hzero.mp hc) (by omega)
      · simp only [natCharsAux, if_neg h10]
        have hrec : n / 10 < n := Nat.div_lt_self (by omega) (by omega)
        have hfuel : n / 10 < fuel := by omega
        obtain ⟨hne, hdig, hfold, hhead⟩ := ih (n / 10) hrec fuel hfuel
        have hmod : n % 10 < 10 := Nat.mod_lt _ (by omega)
        obtain ⟨hdig', hval', _⟩ := digitChar_facts (n % 10) hmod
        refine ⟨by simp, ?_, ?_, ?_⟩
        · intro c hc
          rcases List.mem_append.mp hc with h | h
          · exact hdig c h
          · simp at h
            subst h
            exact hdig'
        · intro a
          rw [List.foldl_append]
          simp only [List.foldl_cons, List.foldl_nil, hfold, hval',
            List.length_append, List.length_cons, List.length_nil]
          rw [pow_succ]
          have hdm := Nat.div_add_mod n 10
          set L := 10 ^ (natCharsAux fuel (n / 10)).length with hL
          have hmul : a * (L * 10) = 10 * (a * L) := by ring
          omega
        · intro _
          rcases hx : natCharsAux fuel (n / 10) with _ | ⟨c, t⟩
          · exact absurd hx hne
          · simp only [List.cons_append, List.head?_cons]
            have := hhead (by omega)
            rw [hx] at this
            simpa using this

/-- Facts about the decimal rendering `natChars`. -/
theorem natChars_spec (n : Nat) :
    natChars n ≠ [] ∧
    (∀ c ∈ natChars n, c.isDigit = true) ∧
    charsToNat (natChars n) = n ∧
    (1 ≤ n → (natChars n).head? ≠ some '0') := by
  obtain ⟨h1, h2, h3, h4⟩ := natCharsAux_spec n (n + 1) (by omega)
  exact ⟨h1, h2, by simpa using h3 0, h4⟩

/-- Splitting a list at the boundary where a predicate stops holding. -/
theorem takeWhile_dropWhile_append (p : Char → Bool) (xs ys : List Char)
    (hxs : ∀ c ∈ xs, p c = true)
    (hys : ∀ c, ys.head? = some c → p c = false) :
    (xs ++ ys).takeWhile p = xs ∧ (xs ++ ys).dropWhile p = ys := by
  induction xs with
  | nil =>
    simp only [List.nil_append]
    cases ys with
    | nil => simp
    | cons c t =>
      have := hys c rfl
      simp [List.takeWhile_cons, List.dropWhile_cons, this]
  | cons x xs ih =>
    have hx : p x = true := hxs x (by simp)
    obtain ⟨ht, hd⟩ := ih (fun c hc => hxs c (by simp [hc]))
    simp [List.takeWhile_cons, List.dropWhile_cons, hx, ht, hd]

/-- Parsing a printed number consumes exactly its digits. -/
theorem parseNum_print (n : Nat) (rest : List Char) (hn : n < 2 ^ 64)
    (hrest : ∀ c, rest.head? = some c → c.isDigit = false) :
    parseNum (natChars n ++ rest) = some (n, rest) := by
  obtain ⟨hne, hdig, hval, hhead⟩ := natChars_spec n
  obtain ⟨ht, hd⟩ := takeWhile_dropWhile_append (·.isDigit) (natChars n) rest
    hdig hrest
  unfold parseNum
  simp only [ht, hd]
  rw [if_neg (by simpa [List.isEmpty_iff] using hne)]
  rw [if_neg ?hlz]
  case hlz =>
    rcases Nat.eq_zero_or_pos n with h0 | h1
    · subst h0
      intro ⟨_, hlen⟩
      exact hlen (by rfl)
    · intro ⟨hh, _⟩
      exact hhead h1 hh
  rw [hval, if_pos hn]

/-- The dot-split of a list never produces no groups. -/
theorem splitDots_ne_nil (cs : List Char) : splitDots cs ≠ [] := by
  cases cs with
  | nil => simp [splitDots]
  | cons c t =>
    unfold splitDots
    rcases h : splitDots t with _ | ⟨g, gs⟩
    · simp
    · by_cases hc : c = '.' <;> simp [hc]

/-- Every character of a list is a dot or lies in one of its dot-split
groups. -/
theorem splitDots_chars (cs : List Char) (c : Char) (hc : c ∈ cs) :
    c = '.' ∨ ∃ g ∈ splitDots cs, c ∈ g := by
  induction cs with
  | nil => cases hc
  | cons x t ih =>
    rcases h : splitDots t with _ | ⟨g, gs⟩
    · exact absurd h (splitDots_ne_nil t)
    · rcases List.mem_cons.mp hc with rfl | hmem
      · by_cases hx : c = '.'
        · exact Or.inl hx
        · refine Or.inr ⟨c :: g, ?_, by simp⟩
          simp only [splitDots, h]
          rw [if_neg hx]
          simp
      · rcases ih hmem with hdot | ⟨g', hg', hcg'⟩
        · exact Or.inl hdot
        · rw [h] at hg'
          simp only [splitDots, h]
          by_cases hx : x = '.'
          · rw [if_pos hx]
            exact Or.inr ⟨g', by simp [List.mem_cons.mp hg'], hcg'⟩
          · rw [if_neg hx]
            rcases List.mem_cons.mp hg' with rfl | htail
            · exact Or.inr ⟨x :: g', by simp, by simp [hcg']⟩
            · exact Or.inr ⟨g', by simp [htail], hcg'⟩

/-- Every character of a valid prerelease or build section may occur in
such a section. -/
theorem validSection_chars (strict : Bool) (cs : List Char)
    (hv : (splitDots cs).all (identOk strict) = true) :
    ∀ c ∈ cs, isPreChar c = true := by
  intro c hc
  rcases splitDots_chars cs c hc with rfl | ⟨g, hg, hcg⟩
  · decide
  · have hok := (List.all_eq_true.mp hv) g hg
    unfold identOk at hok
    have hchars : g.all isIdentChar = true := by
      cases h1 : g.isEmpty <;> cases h2 : g.all isIdentChar <;>
        simp [h1, h2] at hok ⊢
    have := (List.all_eq_true.mp hchars) c hcg
    simp [isPreChar, this]

/-- Parsing a printed nonempty prerelease consumes exactly it. -/
theorem parsePre_print (pre rest : List Char) (hv : validPre pre = true)
    (hrest : ∀ c, rest.head? = some c → isPreChar c = false) :
    parsePre (pre ++ rest) = some (pre, rest) := by
  obtain ⟨ht, hd⟩ := takeWhile_dropWhile_append isPreChar pre rest
    (validSection_chars false pre hv) hrest
  unfold parsePre
  simp only [ht, hd, hv, if_pos]

/-- Parsing a printed nonempty build-metadata section consumes exactly
it. -/
theorem parseBuild_print (build rest : List Char) (hv : validBuild build = true)
    (hrest : ∀ c, rest.head? = some c → isPreChar c = false) :
    parseBuild (build ++ rest) = some (build, rest) := by
  obtain ⟨ht, hd⟩ := takeWhile_dropWhile_append isPreChar build rest
    (validSection_chars true build hv) hrest
  unfold parseBuild
  simp only [ht, hd, hv, if_pos]

/-- Reduction rules for the optional-segment parsers. -/
theorem expectDot_cons (r : List Char) : expectDot ('.' :: r) = some r := rfl

theorem parsePreOpt_nil : parsePreOpt [] = some ([], []) := rfl

theorem parsePreOpt_plus (r : List Char) :
    parsePreOpt ('+' :: r) = some ([], '+' :: r) := rfl

theorem parsePreOpt_dash (r : List Char) : parsePreOpt ('-' :: r) = parsePre r := rfl

theorem parseBuildOpt_nil : parseBuildOpt [] = some ([], []) := rfl

theorem parseBuildOpt_plus (r : List Char) :
    parseBuildOpt ('+' :: r) = parseBuild r := rfl

/-- A valid prerelease or build section is nonempty. -/
theorem validSection_ne_nil {strict : Bool} {s : List Char}
    (h : (splitDots s).all (identOk strict) = true) : s ≠ [] := by
  intro hnil
  subst hnil
  cases strict <;> exact absurd h (by decide)

/-- Parsing the canonical rendering of a valid version recovers exactly
its structured fields. -/
theorem parseSemver_print (v : Version) (hv : validVersion v) :
    parseSemver (versionChars v) = some v := by
  obtain ⟨major, minor, patch, pre, build⟩ := v
  unfold validVersion at hv
  dsimp only at hv
  obtain ⟨h1, h2, h3, hpre, hbuild⟩ := hv
  have hdot : ∀ r : List Char, ∀ c, ('.' :: r).head? = some c → c.isDigit = false := by
    intro r c hc
    simp only [List.head?_cons, Option.some.injEq] at hc
    subst hc
    decide
  unfold versionChars
  dsimp only
  rcases hbuild with rfl | hvb
  · rcases hpre with rfl | hvp
    · -- no prerelease, no build
      simp only [reduceIte, List.append_nil]
      have hA := parseNum_print major ('.' :: (natChars minor ++ ('.' :: natChars patch)))
        h1 (hdot _)
      have hB := parseNum_print minor ('.' :: natChars patch) h2 (hdot _)
      have hC : parseNum (natChars patch) = some (patch, []) := by
        simpa using parseNum_print patch [] h3 (fun c hc => by cases hc)
      simp only [parseSemver, hA, hB, hC, expectDot_cons, parsePreOpt_nil,
        parseBuildOpt_nil, if_pos rfl, if_true]
    · -- prerelease only
      have hnp : pre ≠ [] := validSection_ne_nil hvp
      simp only [reduceIte, if_neg hnp, List.append_nil]
      have hA := parseNum_print major
        ('.' :: (natChars minor ++ ('.' :: (natChars patch ++ ('-' :: pre)))))
        h1 (hdot _)
      have hB := parseNum_print minor ('.' :: (natChars patch ++ ('-' :: pre)))
        h2 (hdot _)
      have hC := parseNum_print patch ('-' :: pre) h3
        (fun c hc => by
          simp only [List.head?_cons, Option.some.injEq] at hc
          subst hc
          decide)
      have hP : parsePre (pre ++ []) = some (pre, []) :=
        parsePre_print pre [] hvp (fun c hc => by cases hc)
      rw [List.append_nil] at hP
      simp only [parseSemver, hA, hB, hC, expectDot_cons, parsePreOpt_dash, hP,
        parseBuildOpt_nil, if_pos rfl, if_true]
  · have hnb : build ≠ [] := validSection_ne_nil hvb
    have hBld : parseBuild (build ++ []) = some (build, []) :=
      parseBuild_print build [] hvb (fun c hc => by cases hc)
    rw [List.append_nil] at hBld
    rcases hpre with rfl | hvp
    · -- build only
      simp only [reduceIte, if_neg hnb, List.nil_append]
      have hA := parseNum_print major
        ('.' :: (natChars minor ++ ('.' :: (natChars patch ++ ('+' :: build)))))
        h1 (hdot _)
      have hB := parseNum_print minor ('.' :: (natChars patch ++ ('+' :: build)))
        h2 (hdot _)
      have hC := parseNum_print patch ('+' :: build) h3
        (fun c hc => by
          simp only [List.head?_cons, Option.some.injEq] at hc
          subst hc
          decide)
      simp only [parseSemver, hA, hB, hC, expectDot_cons, parsePreOpt_plus,
        parseBuildOpt_plus, hBld, if_pos rfl, if_true]
    · -- prerelease and build
      have hnp : pre ≠ [] := validSection_ne_nil hvp
      simp only [if_neg hnp, if_neg hnb]
      have hshape : ('-' :: pre) ++ ('+' :: build) = '-' :: (pre ++ ('+' :: build)) := by
        simp
      rw [hshape]
      have hA := parseNum_print major
        ('.' :: (natChars minor ++ ('.' :: (natChars patch
          ++ ('-' :: (pre ++ ('+' :: build)))))))
        h1 (hdot _)
      have hB := parseNum_print minor
        ('.' :: (natChars patch ++ ('-' :: (pre ++ ('+' :: build)))))
        h2 (hdot _)
      have hC := parseNum_print patch ('-' :: (pre ++ ('+' :: build))) h3
        (fun c hc => by
          simp only [List.head?_cons, Option.some.injEq] at hc
          subst hc
          decide)
      have hP : parsePre (pre ++ ('+' :: build)) = some (pre, '+' :: build) :=
        parsePre_print pre ('+' :: build) hvp
          (fun c hc => by
            simp only [List.head?_cons, Option.some.injEq] at hc
            subst hc
            decide)
      simp only [parseSemver, hA, hB, hC, expectDot_cons, parsePreOpt_dash, hP,
        parseBuildOpt_plus, hBld, if_pos rfl, if_true]


/- ## Run-time reconstruction of emitted literals

The macros that emit structured values splice a reconstruction expression
whose fallback arm (`unreachable!()` or the else-branch of an `if let`)
aborts the program.  `RunOutcome.abort` models that abort. -/

/-- Result of evaluating an emitted reconstruction expression at run time:
either the reconstructed value, or an immediate abort with an
internal-error signal. -/
inductive RunOutcome (α : Type) where
  | ok (a : α)
  | abort
deriving DecidableEq

/-- A `time::Date` value as reconstructed at run time. -/
structure DateVal where
  year : Int
  month : Nat
  day : Nat
deriving DecidableEq

/-- A `time::Time` value as reconstructed at run time. -/
structure TimeVal where
  hour : Nat
  minute : Nat
  second : Nat
deriving DecidableEq

/-- The validation of `time::Date::from_calendar_date`: year within
±9999, month a valid month, day within the month (in the Rust signature
the month is an enum and needs no check; the 1..=12 bound expresses the
same invariant for the numeric encoding). -/
def fromCalendarDate (year : Int) (month day : Nat) : Option DateVal :=
  if -9999 ≤ year ∧ year ≤ 9999 ∧ 1 ≤ month ∧ month ≤ 12
      ∧ 1 ≤ day ∧ day ≤ daysInMonth (isLeapYear year) month
  then some ⟨year, month, day⟩ else none

/-- The validation of `time::Time::from_hms`. -/
def fromHms (hour minute second : Nat) : Option TimeVal :=
  if hour ≤ 23 ∧ minute ≤ 59 ∧ second ≤ 59
  then some ⟨hour, minute, second⟩ else none

/-- The validation of `semver::Prerelease::new`. -/
def prereleaseNew (s : List Char) : Option (List Char) :=
  if validPre s then some s else none

/-- The validation of `semver::BuildMetadata::new`. -/
def buildMetadataNew (s : List Char) : Option (List Char) :=
  if validBuild s then some s else none

/-- Run-time evaluation of the date expression emitted by `date!` and
`datetime!`: `match Date::from_calendar_date(..) { Ok(d) => d,
_ => unreachable!() }`. -/
def runEmittedDate (year : Int) (month day : Nat) : RunOutcome DateVal :=
  match fromCalendarDate year month day with
  | some v => .ok v
  | none => .abort

/-- Run-time evaluation of the time expression emitted by `time!` and
`datetime!`. -/
def runEmittedTime (hour minute second : Nat) : RunOutcome TimeVal :=
  match fromHms hour minute second with
  | some v => .ok v
  | none => .abort

/-- Run-time evaluation of the prerelease expression emitted by
`rustc_version!`: `Prerelease::EMPTY` for an empty prerelease, otherwise
`if let Ok(pre) = Prerelease::new(..) { pre } else { unreachable!() }`. -/
def runEmittedPre (s : List Char) : RunOutcome (List Char) :=
  if s = [] then .ok []
  else
    match prereleaseNew s with
    | some p => .ok p
    | none => .abort

/-- Run-time evaluation of the build-metadata expression emitted by
`rustc_version!`. -/
def runEmittedBuild (s : List Char) : RunOutcome (List Char) :=
  if s = [] then .ok []
  else
    match buildMetadataNew s with
    | some b => .ok b
    | none => .abort

/- ## The process-state cache and macro expansion

`COMPILE_TIME` and `RUSTC_VERSION` are `once_cell::sync::Lazy` statics:
the first dereference runs the initializer (`OffsetDateTime::now_utc` /
`rustc_version::version`), every later dereference returns the memoized
value.  `Host` supplies the successive readings the initializers would
observe (so that a re-query would be observable as a second reading), and
`CacheState` is the state of the two cells together with how many host
queries each has performed. -/

/-- Result of the toolchain-version query, as memoized in
`RUSTC_VERSION`: `rustc_version::Result<Version>` with the error reduced
to its display message. -/
inductive VersionResult where
  | ok (v : Version)
  | err (e : List Char)
deriving DecidableEq

/-- The ambient host: what the clock would read and what the version
query would report at each successive query. -/
structure Host where
  clockAt : Nat → Instant
  versionAt : Nat → VersionResult

/-- State of the two lazily-initialized cells. -/
structure CacheState where
  compileTime : Option Instant
  rustcVersionCache : Option VersionResult
  clockQueries : Nat
  versionQueries : Nat
deriving DecidableEq

/-- State at process start: nothing captured, nothing queried. -/
def initialState : CacheState :=
  { compileTime := none, rustcVersionCache := none,
    clockQueries := 0, versionQueries := 0 }

/-- Dereference `COMPILE_TIME`: return the memoized instant, querying the
host clock only when the cell is empty. -/
def forceTime (host : Host) (s : CacheState) : Instant × CacheState :=
  match s.compileTime with
  | some v => (v, s)
  | none =>
    (host.clockAt s.clockQueries,
     { s with compileTime := some (host.clockAt s.clockQueries),
              clockQueries := s.clockQueries + 1 })

/-- Dereference `RUSTC_VERSION`: return the memoized query result (value
or error), querying the toolchain only when the cell is empty. -/
def forceVersion (host : Host) (s : CacheState) : VersionResult × CacheState :=
  match s.rustcVersionCache with
  | some r => (r, s)
  | none =>
    (host.versionAt s.versionQueries,
     { s with rustcVersionCache := some (host.versionAt s.versionQueries),
              versionQueries := s.versionQueries + 1 })

/-- One public macro of the crate, by view tag. -/
inductive ViewTag where
  | date | dateStr | time | timeStr | datetime | datetimeStr | unix
  | rustcVersion | rustcVersionStr | rustcVersionMajor | rustcVersionMinor
  | rustcVersionPatch | rustcVersionPre | rustcVersionBuild
deriving DecidableEq

/-- The literal expression a macro splices at its invocation site. -/
inductive Literal where
  | dateCtor (year : Int) (month day : Nat)
  | timeCtor (hour minute second : Nat)
  | datetimeCtor (year : Int) (month day hour minute second : Nat)
  | strLit (s : List Char)
  | intLit (n : Int)
  | natLit (n : Nat)
  | versionCtor (major minor patch : Nat) (pre build : List Char)
deriving DecidableEq

/-- Outcome of one macro invocation: an emitted literal, or a panic
(which aborts the invocation site's build). -/
inductive Emitted where
  | lit (l : Literal)
  | panicked (msg : List Char)
deriving DecidableEq

/-- The literal emitted by `date!` from the cached instant. -/
def dateLit (i : Instant) : Literal := .dateCtor i.year i.month i.day

/-- The literal emitted by `time!` from the cached instant. -/
def timeLit (i : Instant) : Literal := .timeCtor i.hour i.minute i.second

/-- The literal emitted by `datetime!` from the cached instant. -/
def datetimeLit (i : Instant) : Literal :=
  .datetimeCtor i.year i.month i.day i.hour i.minute i.second

/-- The message of the panic `Failed to get version: {err}` raised by
every toolchain-version macro when the memoized query result is an
error. -/
def failMessage (e : List Char) : List Char :=
  "Failed to get version: ".data ++ e

/-- Emission common to the seven timestamp macros: force the
`COMPILE_TIME` cell, then apply a pure view. -/
def timeView (f : Instant → Literal) (host : Host) (s : CacheState) :
    Emitted × CacheState :=
  (.lit (f (forceTime host s).1), (forceTime host s).2)

/-- Emission common to the seven toolchain-version macros: force the
`RUSTC_VERSION` cell, then apply a pure view to the value, or panic with
the memoized error. -/
def versionView (f : Version → Literal) (host : Host) (s : CacheState) :
    Emitted × CacheState :=
  (match (forceVersion host s).1 with
   | .ok v => .lit (f v)
   | .err e => .panicked (failMessage e),
   (forceVersion host s).2)

/-- Expansion of one macro invocation: the token stream `item` supplied at
the invocation site (ignored by every macro, mirroring the unused `_item`
parameters), the ambient host, and the current cache state. -/
def expand (tag : ViewTag) (_item : List Char) (host : Host) (s : CacheState) :
    Emitted × CacheState :=
  match tag with
  | .date => timeView dateLit host s
  | .dateStr => timeView (fun i => .strLit (dateStrChars i)) host s
  | .time => timeView timeLit host s
  | .timeStr => timeView (fun i => .strLit (timeStrChars i)) host s
  | .datetime => timeView datetimeLit host s
  | .datetimeStr => timeView (fun i => .strLit (datetimeStrChars i)) host s
  | .unix => timeView (fun i => .intLit (unixOfInstant i)) host s
  | .rustcVersion =>
    versionView (fun v => .versionCtor v.major v.minor v.patch v.pre v.build) host s
  | .rustcVersionStr => versionView (fun v => .strLit (versionChars v)) host s
  | .rustcVersionMajor => versionView (fun v => .natLit v.major) host s
  | .rustcVersionMinor => versionView (fun v => .natLit v.minor) host s
  | .rustcVersionPatch => versionView (fun v => .natLit v.patch) host s
  | .rustcVersionPre => versionView (fun v => .strLit v.pre) host s
  | .rustcVersionBuild => versionView (fun v => .strLit v.build) host s

/-- The toolchain-version macros. -/
def isVersionTag : ViewTag → Bool
  | .rustcVersion | .rustcVersionStr | .rustcVersionMajor | .rustcVersionMinor
  | .rustcVersionPatch | .rustcVersionPre | .rustcVersionBuild => true
  | _ => false

/- ### Cache idempotence -/

/-- A second dereference of `COMPILE_TIME` returns the memoized pair
unchanged. -/
theorem forceTime_idem (host : Host) (s : CacheState) :
    forceTime host (forceTime host s).2 = forceTime host s := by
  rcases hc : s.compileTime with _ | v <;>
    simp [forceTime, hc]

/-- A second dereference of `RUSTC_VERSION` returns the memoized pair
unchanged. -/
theorem forceVersion_idem (host : Host) (s : CacheState) :
    forceVersion host (forceVersion host s).2 = forceVersion host s := by
  rcases hc : s.rustcVersionCache with _ | r <;>
    simp [forceVersion, hc]

/- ### Helper lemmas for the claims -/

/-- After a dereference, the `COMPILE_TIME` cell holds the returned
instant. -/
theorem forceTime_cached (host : Host) (s : CacheState) :
    (forceTime host s).2.compileTime = some (forceTime host s).1 := by
  rcases hc : s.compileTime with _ | v <;> simp [forceTime, hc]

/-- Forcing an already-failed `RUSTC_VERSION` cell panics and leaves the
state untouched. -/
theorem versionView_cached_err (f : Version → Literal) (host : Host)
    (s : CacheState) (e : List Char)
    (hc : s.rustcVersionCache = some (.err e)) :
    versionView f host s = (.panicked (failMessage e), s) := by
  simp [versionView, forceVersion, hc]

/-- A first dereference of `RUSTC_VERSION` under a failing query memoizes
the error, panics, and bumps the query counter once. -/
theorem versionView_first_err (f : Version → Literal) (host : Host)
    (s : CacheState) (e : List Char)
    (hq : host.versionAt s.versionQueries = .err e)
    (hempty : s.rustcVersionCache = none) :
    versionView f host s
      = (.panicked (failMessage e),
         { s with rustcVersionCache := some (.err e),
                  versionQueries := s.versionQueries + 1 }) := by
  simp [versionView, forceVersion, hempty, hq]

/- ### Concrete values used by the witnesses and examples -/

/-- The example instant 2024-03-05T14:08:31 UTC. -/
def exInstant : Instant := ⟨2024, 3, 5, 14, 8, 31⟩

/-- The example toolchain version 1.78.0. -/
def v78 : Version := ⟨1, 78, 0, [], []⟩

/-- The example toolchain version 1.79.0-beta.2+abc123. -/
def v79 : Version := ⟨1, 79, 0, "beta.2".data, "abc123".data⟩

/-- A host whose clock reads the example instant and whose toolchain
reports 1.78.0. -/
def exHost : Host := ⟨fun _ => exInstant, fun _ => .ok v78⟩

/-- A host whose toolchain-version query fails with message `boom`. -/
def failHost : Host := ⟨fun _ => exInstant, fun _ => .err "boom".data⟩

/-- A cache state holding a memoized version-query result. -/
def cachedWith (r : VersionResult) : CacheState := ⟨none, some r, 0, 0⟩

/- ### The claims -/

/-- C1: for every captured build instant, the string emitted by
`datetime_str!` equals the string emitted by `date_str!`, followed by
`"T"`, followed by the string emitted by `time_str!`, followed by
`"Z"`. -/
theorem claim_C1 (i : Instant) :
    datetime_str i = date_str i ++ "T" ++ time_str i ++ "Z" := by
  apply String.ext
  simp only [datetime_str, date_str, time_str, String.data_append]
  simp [datetimeStrChars, dateStrChars, timeStrChars]

/-- C2: the integer emitted by `unix!` is computed from the same cached
instant as the structured value emitted by `datetime!` (the cache is not
re-sampled and not modified by the second expansion), and converting that
integer back to UTC calendar fields recovers exactly the year, month,
day, hour, minute and second of the `datetime!` view. -/
theorem claim_C2 (ts1 ts2 : List Char) (host : Host) (s : CacheState)
    (i : Instant) (hv : validInstant i) :
    (expand .unix ts2 host (expand .datetime ts1 host s).2).2
        = (expand .datetime ts1 host s).2 ∧
    (∃ v : Instant,
      (expand .datetime ts1 host s).2.compileTime = some v ∧
      (expand .datetime ts1 host s).1 = .lit (datetimeLit v) ∧
      (expand .unix ts2 host (expand .datetime ts1 host s).2).1
          = .lit (.intLit (unixOfInstant v))) ∧
    instantFromUnix (unixOfInstant i) = i := by
  refine ⟨?_, ⟨(forceTime host s).1, ?_, ?_, ?_⟩, instant_roundtrip i hv⟩
  · simp [expand, timeView, forceTime_idem]
  · simp [expand, timeView, forceTime_cached]
  · simp [expand, timeView]
  · simp [expand, timeView, forceTime_idem]

/-- C2 witness at a concrete host, state and instant. -/
theorem claim_C2_witness :
    (expand .unix [] exHost (expand .datetime [] exHost initialState).2).2
        = (expand .datetime [] exHost initialState).2 ∧
    (∃ v : Instant,
      (expand .datetime [] exHost initialState).2.compileTime = some v ∧
      (expand .datetime [] exHost initialState).1 = .lit (datetimeLit v) ∧
      (expand .unix [] exHost (expand .datetime [] exHost initialState).2).1
          = .lit (.intLit (unixOfInstant v))) ∧
    instantFromUnix (unixOfInstant exInstant) = exInstant :=
  claim_C2 [] [] exHost initialState exInstant (by decide)

/-- C3: within one build, two invocations of the same view macro — for
every recognized view tag — produce identical literals: the host is
queried on first access only, and the second invocation returns the
memoized value and leaves the cache state unchanged. -/
theorem claim_C3 (tag : ViewTag) (ts1 ts2 : List Char) (host : Host)
    (s : CacheState) :
    expand tag ts2 host (expand tag ts1 host s).2 = expand tag ts1 host s := by
  cases tag <;>
    simp [expand, timeView, versionView, forceTime_idem, forceVersion_idem]

/-- C4: a failing toolchain-version query is captured once and memoized;
every toolchain-version view panics with that same memoized error message
verbatim and aborts its invocation site, and the query is never retried
(later version expansions leave the state unchanged). -/
theorem claim_C4 (host : Host) (s : CacheState) (tag : ViewTag)
    (ts : List Char) (e : List Char)
    (htag : isVersionTag tag = true)
    (hq : host.versionAt s.versionQueries = .err e)
    (hempty : s.rustcVersionCache = none) :
    (expand tag ts host s).1 = .panicked (failMessage e) ∧
    (expand tag ts host s).2.rustcVersionCache = some (.err e) ∧
    (expand tag ts host s).2.versionQueries = s.versionQueries + 1 ∧
    (∀ tag2 ts2, isVersionTag tag2 = true →
      expand tag2 ts2 host (expand tag ts host s).2
        = (.panicked (failMessage e), (expand tag ts host s).2)) := by
  have hstep : ∀ f, versionView f host s
      = (.panicked (failMessage e),
         { s with rustcVersionCache := some (.err e),
                  versionQueries := s.versionQueries + 1 }) :=
    fun f => versionView_first_err f host s e hq hempty
  have hcached : ∀ f s2, s2.rustcVersionCache = some (.err e) →
      versionView f host s2 = (.panicked (failMessage e), s2) :=
    fun f s2 h => versionView_cached_err f host s2 e h
  cases tag <;> first
    | exact absurd htag (by decide)
    | (simp only [expand, hstep]
       refine ⟨trivial, trivial, trivial, ?_⟩
       intro tag2 ts2 htag2
       cases tag2 <;> first
         | exact absurd htag2 (by decide)
         | exact hcached _ _ rfl)

/-- C4 witness: a concrete failing host from the initial state. -/
theorem claim_C4_witness :
    (expand .rustcVersionStr [] failHost initialState).1
        = .panicked (failMessage "boom".data) ∧
    (expand .rustcVersionStr [] failHost initialState).2.rustcVersionCache
        = some (.err "boom".data) ∧
    (expand .rustcVersionStr [] failHost initialState).2.versionQueries
        = initialState.versionQueries + 1 ∧
    (∀ tag2 ts2, isVersionTag tag2 = true →
      expand tag2 ts2 failHost (expand .rustcVersionStr [] failHost initialState).2
        = (.panicked (failMessage "boom".data),
           (expand .rustcVersionStr [] failHost initialState).2)) :=
  claim_C4 failHost initialState .rustcVersionStr [] "boom".data
    (by decide) rfl rfl

/-- C5: for every in-range captured instant and validly parsed toolchain
version, the fallback arms of the emitted reconstruction expressions are
not taken — each reconstruction yields exactly the captured value — and
by construction of the run-time model a reached fallback aborts
immediately rather than producing a value. -/
theorem claim_C5 (i : Instant) (v : Version) (hi : validInstant i)
    (hv : validVersion v) :
    runEmittedDate i.year i.month i.day = .ok ⟨i.year, i.month, i.day⟩ ∧
    runEmittedTime i.hour i.minute i.second = .ok ⟨i.hour, i.minute, i.second⟩ ∧
    runEmittedPre v.pre = .ok v.pre ∧
    runEmittedBuild v.build = .ok v.build := by
  obtain ⟨h1, h2, h3, h4, h5, h6, h7, h8, h9⟩ := hi
  obtain ⟨_, _, _, hpre, hbuild⟩ := hv
  refine ⟨?_, ?_, ?_, ?_⟩
  · unfold runEmittedDate fromCalendarDate
    rw [if_pos ⟨h1, h2, h3, h4, h5, h6⟩]
  · unfold runEmittedTime fromHms
    rw [if_pos ⟨by omega, by omega, by omega⟩]
  · rcases hpre with h | h
    · rw [h]
      rfl
    · unfold runEmittedPre prereleaseNew
      rw [if_neg (validSection_ne_nil h), h]
      rfl
  · rcases hbuild with h | h
    · rw [h]
      rfl
    · unfold runEmittedBuild buildMetadataNew
      rw [if_neg (validSection_ne_nil h), h]
      rfl

/-- C5 witness at the example instant and the prerelease+build version. -/
theorem claim_C5_witness :
    runEmittedDate exInstant.year exInstant.month exInstant.day
        = .ok ⟨exInstant.year, exInstant.month, exInstant.day⟩ ∧
    runEmittedTime exInstant.hour exInstant.minute exInstant.second
        = .ok ⟨exInstant.hour, exInstant.minute, exInstant.second⟩ ∧
    runEmittedPre v79.pre = .ok v79.pre ∧
    runEmittedBuild v79.build = .ok v79.build :=
  claim_C5 exInstant v79 (by decide) (by decide)

/-- C6: for every captured toolchain version, the string emitted by
`rustc_version_str!` is the canonical
`major.minor.patch[-prerelease][+build]` form with empty segments omitted,
and parsing it with a standard semantic-version parser reproduces exactly
the structured version emitted by `rustc_version!`. -/
theorem claim_C6 (v : Version) (hv : validVersion v) :
    versionChars v = canonicalVersionChars v ∧
    parseSemver (versionChars v) = some v :=
  ⟨rfl, parseSemver_print v hv⟩

/-- C6 witness at the prerelease+build example version. -/
theorem claim_C6_witness :
    versionChars v79 = canonicalVersionChars v79 ∧
    parseSemver (versionChars v79) = some v79 :=
  claim_C6 v79 (by decide)

/-- C7: with no prerelease and no build metadata (1.78.0),
`rustc_version_pre!` and `rustc_version_build!` emit the empty string (a
literal, not a missing-value marker) and `rustc_version_str!` emits
`1.78.0`; with 1.79.0-beta.2+abc123 they emit `beta.2` and `abc123`. -/
theorem claim_C7 :
    (expand .rustcVersionPre [] exHost (cachedWith (.ok v78))).1
        = .lit (.strLit []) ∧
    (expand .rustcVersionBuild [] exHost (cachedWith (.ok v78))).1
        = .lit (.strLit []) ∧
    rustc_version_str v78 = "1.78.0" ∧
    (expand .rustcVersionPre [] exHost (cachedWith (.ok v79))).1
        = .lit (.strLit "beta.2".data) ∧
    (expand .rustcVersionBuild [] exHost (cachedWith (.ok v79))).1
        = .lit (.strLit "abc123".data) ∧
    rustc_version_str v79 = "1.79.0-beta.2+abc123" := by
  decide

/-- C8: if the captured clock reading is 2024-03-05T14:08:31 UTC, then
`date_str!` emits `2024-03-05`, `time_str!` emits `14:08:31`,
`datetime_str!` emits `2024-03-05T14:08:31Z`, and `unix!` emits the
integer 1709647711. -/
theorem claim_C8 :
    date_str exInstant = "2024-03-05" ∧
    time_str exInstant = "14:08:31" ∧
    datetime_str exInstant = "2024-03-05T14:08:31Z" ∧
    unixOfInstant exInstant = 1709647711 ∧
    (expand .dateStr [] exHost initialState).1
        = .lit (.strLit "2024-03-05".data) ∧
    (expand .unix [] exHost initialState).1 = .lit (.intLit 1709647711) := by
  decide

/-- C10: every macro ignores the token stream supplied at its invocation
site — for any two inputs, the expansion (emitted literal and resulting
state) is identical. -/
theorem claim_C10 (tag : ViewTag) (ts1 ts2 : List Char) (host : Host)
    (s : CacheState) :
    expand tag ts1 host s = expand tag ts2 host s := by
  cases tag <;> rfl

end CompileTime
